import Mathlib

/-!
Shallow embedding of the concurrent bidding engine of the auction website
(`app.py`): the data model (users, auctions, bids, notifications), the
bid arbiter `place_bid` (`/api/bid` route), the outcome notifier
`create_notification`, the broadcaster join handler `handle_join`, and the
auction creation path `create_auction`.  Monetary amounts (MySQL
`DECIMAL(10,2)`, Python floats) are embedded as `Int` (cents) and
timestamps as `Int`; only their ordering matters to the bidding logic.
Storage faults raised by the MySQL connector inside the transaction are
embedded as an explicit `Fault` injection parameter; the `except` blocks
of `place_bid` (rollback + generic JSON reply) become the
`transientFailure` outcome.  Each call of `place_bid` runs inside a
`SELECT ... FOR UPDATE` row lock on the one auction row, so a concurrent
history is embedded as a sequence of atomic `place_bid` steps
(`run_bids`).
-/

namespace App

/-- A row of the `users` table (the fields read by the bidding engine). -/
structure User where
  id : Nat
  name : String
  email_verified : Bool
deriving DecidableEq, Repr

/-- A row of the `auctions` table (the fields read or written by the
bidding engine). -/
structure Auction where
  id : Nat
  title : String
  starting_price : Int
  current_price : Int
  end_time : Int
  seller_id : Nat
deriving DecidableEq, Repr

/-- A row of the `bids` table. -/
structure Bid where
  auction_id : Nat
  user_id : Nat
  amount : Int
  bid_time : Int
deriving DecidableEq, Repr

/-- A row of the `notifications` table. -/
structure Notification where
  user_id : Nat
  message : String
  link : String
  created_at : Int
  is_read : Bool
deriving DecidableEq, Repr

/-- The database state: the four tables touched by the bidding engine,
plus the `AUTO_INCREMENT` counter of the `auctions` table. -/
structure DB where
  users : List User
  auctions : List Auction
  bids : List Bid
  notifications : List Notification
  next_auction_id : Nat
deriving DecidableEq, Repr

/-- The Flask session fields read by `place_bid`. -/
structure Session where
  user_id : Option Nat
  user_name : String
deriving DecidableEq, Repr

/-- `SELECT email_verified FROM users WHERE id = %s`. -/
def findUser (db : DB) (uid : Nat) : Option User :=
  db.users.find? (fun u => u.id == uid)

/-- `SELECT title, current_price, end_time, seller_id FROM auctions
WHERE id = %s` (with `FOR UPDATE` inside `place_bid`). -/
def findAuction (db : DB) (aid : Nat) : Option Auction :=
  db.auctions.find? (fun a => a.id == aid)

/-- The bid of maximal amount in a list (`ORDER BY amount DESC LIMIT 1`);
`none` on an empty list. -/
def maxAmountBid : List Bid → Option Bid
  | [] => none
  | b :: bs =>
    match maxAmountBid bs with
    | none => some b
    | some m => some (if m.amount > b.amount then m else b)

/-- `SELECT user_id FROM bids WHERE auction_id = %s ORDER BY amount DESC
LIMIT 1`: the previous highest bidder of an auction, if any. -/
def highestBidder (db : DB) (aid : Nat) : Option Nat :=
  (maxAmountBid (db.bids.filter (fun b => b.auction_id == aid))).map Bid.user_id

/-- The wire shape of the `new_notification` SocketIO event built by
`create_notification` (sent to the recipient's private room). -/
structure NotificationPayload where
  id : Nat
  user_id : Nat
  message : String
  is_read : Bool
  created_at : Int
  link : String
deriving DecidableEq, Repr

/-- The wire shape of the public `new_bid` SocketIO event. -/
structure BidEventPayload where
  auction_id : Nat
  amount : Int
  user_name : String
deriving DecidableEq, Repr

/-- Observable broadcast/commit events of one `place_bid` call, in program
order.  `commit` marks `conn.commit()`; the emits are `socketio.emit`. -/
inductive Event where
  | notifyEmit (payload : NotificationPayload)
  | commit
  | bidEmit (payload : BidEventPayload)
deriving DecidableEq, Repr

/-- Result of `create_notification`: the database with the inserted row,
and the `new_notification` event it emits. -/
structure NotifResult where
  db : DB
  event : Event
deriving DecidableEq, Repr

/-- `create_notification(cursor, user_id, message, link)`: inserts a
notification row on the caller's open cursor (no commit) and immediately
emits the `new_notification` event to room `str(user_id)`.  The
`cursor.lastrowid` of the `AUTO_INCREMENT` id is embedded as the row
count after the insert. -/
def create_notification (db : DB) (uid : Nat) (message link : String)
    (now : Int) : NotifResult :=
  let row : Notification :=
    { user_id := uid, message := message, link := link
      created_at := now, is_read := false }
  { db := { db with notifications := db.notifications ++ [row] }
    event := Event.notifyEmit
      { id := db.notifications.length + 1, user_id := uid, message := message
        is_read := false, created_at := now, link := link } }

/-- Outcome of one `place_bid` call, one constructor per distinct JSON
reply of the route. -/
inductive BidOutcome where
  | notLoggedIn
  | unverified
  | notFound
  | selfBid
  | ended
  | tooLow
  | transientFailure
  | success
deriving DecidableEq, Repr

/-- Points inside the transaction of `place_bid` at which the MySQL
connector can raise a storage fault (each one a cursor operation or the
commit itself). -/
inductive Fault where
  | atSelect
  | atInsertBid
  | atUpdatePrice
  | atInsertNotif
  | atCommit
deriving DecidableEq, Repr

/-- Result of one `place_bid` call: the JSON outcome, the database state
after the call, and the emitted events in program order. -/
structure BidResult where
  outcome : BidOutcome
  db : DB
  events : List Event
deriving DecidableEq, Repr

/-- `INSERT INTO bids (auction_id, user_id, amount, bid_time) VALUES
(%s, %s, %s, %s)`. -/
def insert_bid (db : DB) (auction_id uid : Nat) (amount now : Int) : DB :=
  { db with bids := db.bids ++
      [{ auction_id := auction_id, user_id := uid
         amount := amount, bid_time := now }] }

/-- `UPDATE auctions SET current_price = %s WHERE id = %s`. -/
def update_price (db : DB) (auction_id : Nat) (amount : Int) : DB :=
  { db with auctions := db.auctions.map (fun a =>
      if a.id == auction_id then { a with current_price := amount }
      else a) }

/-- The write phase of `place_bid`, reached once all five validation
checks have passed (still inside the transaction, under the row lock):
capture of the previous highest bidder, bid insert, price update,
conditional notification insert (which emits its event at once), then
`conn.commit()` and the public `new_bid` emit.  An injected `fault` at a
reached point raises, is caught, rolls the transaction back and yields
`transientFailure` with the original database state. -/
def bid_commit (db : DB) (uid : Nat) (user_name : String)
    (auction : Auction) (auction_id : Nat) (bid_amount : Int) (now : Int)
    (fault : Option Fault) : BidResult :=
  if fault = some Fault.atInsertBid then
    ⟨BidOutcome.transientFailure, db, []⟩
  else
    let prev := highestBidder db auction_id
    let db1 := insert_bid db auction_id uid bid_amount now
    if fault = some Fault.atUpdatePrice then
      ⟨BidOutcome.transientFailure, db, []⟩
    else
      let db2 := update_price db1 auction_id bid_amount
      match prev with
      | some h =>
        if h = uid then
          if fault = some Fault.atCommit then
            ⟨BidOutcome.transientFailure, db, []⟩
          else
            ⟨BidOutcome.success, db2,
              [Event.commit,
               Event.bidEmit ⟨auction_id, bid_amount, user_name⟩]⟩
        else
          if fault = some Fault.atInsertNotif then
            ⟨BidOutcome.transientFailure, db, []⟩
          else
            let nr := create_notification db2 h
              ("You have been outbid on " ++ auction.title ++ ".")
              ("/auction/" ++ toString auction_id) now
            if fault = some Fault.atCommit then
              ⟨BidOutcome.transientFailure, db, [nr.event]⟩
            else
              ⟨BidOutcome.success, nr.db,
                [nr.event, Event.commit,
                 Event.bidEmit ⟨auction_id, bid_amount, user_name⟩]⟩
      | none =>
        if fault = some Fault.atCommit then
          ⟨BidOutcome.transientFailure, db, []⟩
        else
          ⟨BidOutcome.success, db2,
            [Event.commit,
             Event.bidEmit ⟨auction_id, bid_amount, user_name⟩]⟩

/-- The `/api/bid` route `place_bid`, embedded straight from the source:
login check, email-verification check, then inside one transaction under
the `FOR UPDATE` row lock: existence, self-bid (`seller_id ==
session['user_id']`), ended (`end_time < datetime.now()`), too-low
(`bid_amount <= current_price`) checks, then the write phase
`bid_commit`. -/
def place_bid (db : DB) (sess : Session) (auction_id : Nat)
    (bid_amount : Int) (now : Int) (fault : Option Fault) : BidResult :=
  match sess.user_id with
  | none => ⟨BidOutcome.notLoggedIn, db, []⟩
  | some uid =>
    match findUser db uid with
    | none => ⟨BidOutcome.unverified, db, []⟩
    | some user =>
      if user.email_verified = false then ⟨BidOutcome.unverified, db, []⟩
      else if fault = some Fault.atSelect then
        ⟨BidOutcome.transientFailure, db, []⟩
      else
        match findAuction db auction_id with
        | none => ⟨BidOutcome.notFound, db, []⟩
        | some auction =>
          if auction.seller_id = uid then ⟨BidOutcome.selfBid, db, []⟩
          else if auction.end_time < now then ⟨BidOutcome.ended, db, []⟩
          else if bid_amount ≤ auction.current_price then
            ⟨BidOutcome.tooLow, db, []⟩
          else
            bid_commit db uid sess.user_name auction auction_id
              bid_amount now fault

/-- The SocketIO `join` handler `handle_join`: the join is admitted only
when a user is logged in and `str(session['user_id']) == data['room']`. -/
def handle_join (session_user : Option Nat) (room : String) : Bool :=
  match session_user with
  | some uid => toString uid == room
  | none => false

/-- The `create-auction` route (its insert): a fresh `AUTO_INCREMENT` id,
`current_price` initialised to `starting_price`. -/
def create_auction (db : DB) (sellerId : Nat) (title : String)
    (startingPrice : Int) (endTime : Int) : DB :=
  { db with
    auctions := db.auctions ++
      [{ id := db.next_auction_id, title := title
         starting_price := startingPrice, current_price := startingPrice
         end_time := endTime, seller_id := sellerId }]
    next_auction_id := db.next_auction_id + 1 }

/-- One bid attempt of a concurrent history (the serialization order is
the order in which the attempts acquire the per-auction row lock). -/
structure Attempt where
  sess : Session
  auction_id : Nat
  amount : Int
  now : Int
  fault : Option Fault
deriving DecidableEq, Repr

/-- Runs a serialized sequence of bid attempts, threading the database,
and collects the outcomes in order. -/
def run_bids : DB → List Attempt → DB × List BidOutcome
  | db, [] => (db, [])
  | db, att :: rest =>
    let r := place_bid db att.sess att.auction_id att.amount att.now att.fault
    let p := run_bids r.db rest
    (p.1, r.outcome :: p.2)

/-- The amounts of the accepted attempts on auction `aid`, in
serialization order (`attempts` and `outcomes` are aligned). -/
def acceptedAmounts (aid : Nat) : List Attempt → List BidOutcome → List Int
  | [], _ => []
  | _ :: _, [] => []
  | att :: as', o :: os =>
    if att.auction_id = aid ∧ o = BidOutcome.success then
      att.amount :: acceptedAmounts aid as' os
    else acceptedAmounts aid as' os

/-- The amounts of the committed bids of auction `aid`. -/
def auctionAmounts (bids : List Bid) (aid : Nat) : List Int :=
  (bids.filter (fun b => b.auction_id == aid)).map Bid.amount

/-- The maximum of a list of amounts, `none` on the empty list. -/
def maxAmount : List Int → Option Int
  | [] => none
  | x :: xs =>
    match maxAmount xs with
    | none => some x
    | some m => some (max x m)

/-- The price invariant of the data model: every auction row's
`current_price` is at least its `starting_price`, and equals the highest
committed bid amount of that auction, or the `starting_price` when the
auction has no bids. -/
def priceInv (db : DB) : Prop :=
  ∀ a ∈ db.auctions,
    a.starting_price ≤ a.current_price ∧
    (match maxAmount (auctionAmounts db.bids a.id) with
     | none => a.current_price = a.starting_price
     | some m => a.current_price = m)

/-- Bookkeeping invariant of the `AUTO_INCREMENT` id discipline: every
auction id and every bid's auction reference is below the counter, and
auction ids are pairwise distinct. -/
def idInv (db : DB) : Prop :=
  (∀ a ∈ db.auctions, a.id < db.next_auction_id) ∧
  (∀ b ∈ db.bids, b.auction_id < db.next_auction_id) ∧
  (db.auctions.map Auction.id).Nodup

/-- A database with no auctions and no bids (the state right after
`init_db`, with an arbitrary user table). -/
def initDB (users : List User) : DB :=
  { users := users, auctions := [], bids := [], notifications := []
    next_auction_id := 1 }

/-- One state transition of the ledger: a bid attempt through the arbiter,
or the creation of a new auction. -/
inductive Step : DB → DB → Prop
  | bid (db : DB) (sess : Session) (auction_id : Nat) (bid_amount : Int)
      (now : Int) (fault : Option Fault) :
      Step db (place_bid db sess auction_id bid_amount now fault).db
  | create (db : DB) (sellerId : Nat) (title : String)
      (startingPrice : Int) (endTime : Int) :
      Step db (create_auction db sellerId title startingPrice endTime)

/-- The reachable database states: everything obtainable from an initial
bid-free state by arbiter steps and auction creations. -/
inductive Reachable (users : List User) : DB → Prop
  | init : Reachable users (initDB users)
  | step {db db' : DB} : Reachable users db → Step db db' →
      Reachable users db'

/-- The outbid notification row inserted for a previous leader `hb`. -/
def outbidRow (hb : Nat) (title : String) (aid : Nat) (now : Int) :
    Notification :=
  { user_id := hb
    message := "You have been outbid on " ++ title ++ "."
    link := "/auction/" ++ toString aid
    created_at := now, is_read := false }

/-- The ended test of the display helper `get_time_left`:
`if end_time <= now: return "Ended"`. -/
def get_time_left_is_ended (end_time now : Int) : Bool :=
  end_time ≤ now

/-- Concrete users for witness runs. -/
def demoSeller : User := { id := 1, name := "seller", email_verified := true }

def demoBidder : User := { id := 2, name := "bidder", email_verified := true }

def demoRival : User := { id := 3, name := "rival", email_verified := true }

/-- A live auction by user 1, price 100, ending at time 100. -/
def demoAuction : Auction :=
  { id := 1, title := "item", starting_price := 100, current_price := 100
    end_time := 100, seller_id := 1 }

/-- A database with one live bid-free auction. -/
def demoDB : DB :=
  { users := [demoSeller, demoBidder, demoRival]
    auctions := [demoAuction], bids := [], notifications := []
    next_auction_id := 2 }

/-- The same auction after a committed bid of 150 by user 3. -/
def demoAuction150 : Auction :=
  { id := 1, title := "item", starting_price := 100, current_price := 150
    end_time := 100, seller_id := 1 }

/-- A database where user 3 leads auction 1 at 150. -/
def demoDBLeader : DB :=
  { users := [demoSeller, demoBidder, demoRival]
    auctions := [demoAuction150]
    bids := [{ auction_id := 1, user_id := 3, amount := 150, bid_time := 10 }]
    notifications := [], next_auction_id := 2 }

/-- Session of the verified bidder, user 2. -/
def demoSess2 : Session := { user_id := some 2, user_name := "bidder" }

/-- Session of the seller, user 1. -/
def demoSess1 : Session := { user_id := some 1, user_name := "seller" }

/-- A serialized run of three attempts on auction 1 (accept 150, reject
120 as too low, accept 200) matches claim C1's guarantees. -/
def demoAttempts : List Attempt :=
  [{ sess := demoSess2, auction_id := 1, amount := 150, now := 50
     fault := none },
   { sess := { user_id := some 3, user_name := "rival" }, auction_id := 1
     amount := 120, now := 60, fault := none },
   { sess := { user_id := some 3, user_name := "rival" }, auction_id := 1
     amount := 200, now := 70, fault := none }]

/-! ### Characterization lemmas for the arbiter -/

theorem bid_commit_cases (db : DB) (uid : Nat) (un : String)
    (auction : Auction) (aid : Nat) (amt now : Int) (fault : Option Fault) :
    (bid_commit db uid un auction aid amt now fault).outcome =
        BidOutcome.success ∨
      ((bid_commit db uid un auction aid amt now fault).db = db ∧
       (bid_commit db uid un auction aid amt now fault).outcome =
         BidOutcome.transientFailure) := by
  simp only [bid_commit]
  repeat' split
  all_goals first | (left; rfl) | (right; exact ⟨rfl, rfl⟩)

theorem place_bid_cases (db : DB) (sess : Session) (aid : Nat)
    (amt now : Int) (fault : Option Fault) :
    (place_bid db sess aid amt now fault).outcome = BidOutcome.success ∨
    (place_bid db sess aid amt now fault).db = db := by
  simp only [place_bid]
  repeat' split
  all_goals first
    | exact Or.inl rfl
    | exact Or.inr rfl
    | (rcases bid_commit_cases db _ _ _ aid amt now fault with h | h
       · exact Or.inl h
       · exact Or.inr h.1)

/-- A non-`success` outcome leaves the database unchanged. -/
theorem place_bid_db_of_ne_success (db : DB) (sess : Session) (aid : Nat)
    (amt now : Int) (fault : Option Fault)
    (h : (place_bid db sess aid amt now fault).outcome ≠
      BidOutcome.success) :
    (place_bid db sess aid amt now fault).db = db := by
  rcases place_bid_cases db sess aid amt now fault with h' | h'
  · exact absurd h' h
  · exact h'

theorem find_price_update_self (l : List Auction) (aid : Nat) (amt : Int) :
    ((l.map (fun a =>
        if a.id == aid then { a with current_price := amt } else a)).find?
          (fun a => a.id == aid)) =
      (l.find? (fun a => a.id == aid)).map
        (fun a => { a with current_price := amt }) := by
  rw [List.find?_map]
  have hp : ((fun a : Auction => a.id == aid) ∘ fun a =>
      if a.id == aid then { a with current_price := amt } else a) =
      fun a : Auction => a.id == aid := by
    funext a
    by_cases h : a.id = aid <;> simp [h]
  rw [hp]
  cases hfind : l.find? (fun a : Auction => a.id == aid) with
  | none => rfl
  | some a =>
    have hpa := List.find?_some hfind
    simp only [beq_iff_eq] at hpa
    simp [hpa]

theorem find_price_update_ne (l : List Auction) (aid b : Nat) (amt : Int)
    (hb : b ≠ aid) :
    ((l.map (fun a =>
        if a.id == aid then { a with current_price := amt } else a)).find?
          (fun a => a.id == b)) = l.find? (fun a => a.id == b) := by
  rw [List.find?_map]
  have hp : ((fun a : Auction => a.id == b) ∘ fun a =>
      if a.id == aid then { a with current_price := amt } else a) =
      fun a : Auction => a.id == b := by
    funext a
    by_cases h : a.id = aid <;> simp [h]
  rw [hp]
  cases hfind : l.find? (fun a : Auction => a.id == b) with
  | none => rfl
  | some a =>
    have hpa := List.find?_some hfind
    simp only [beq_iff_eq] at hpa
    have : a.id ≠ aid := by omega
    simp [this]

/-- On success, the database after `bid_commit` is the original one with
the bid row appended, the price updated, and the outbid notification
appended exactly when a previous leader distinct from the bidder exists. -/
theorem bid_commit_success_db (db : DB) (uid : Nat) (un : String)
    (auction : Auction) (aid : Nat) (amt now : Int) (fault : Option Fault)
    (h : (bid_commit db uid un auction aid amt now fault).outcome =
      BidOutcome.success) :
    (bid_commit db uid un auction aid amt now fault).db =
      (match highestBidder db aid with
       | none => update_price (insert_bid db aid uid amt now) aid amt
       | some hb =>
         if hb = uid then update_price (insert_bid db aid uid amt now) aid amt
         else
           { update_price (insert_bid db aid uid amt now) aid amt with
             notifications := db.notifications ++
               [outbidRow hb auction.title aid now] }) := by
  simp only [bid_commit] at h ⊢
  repeat' split at h
  all_goals simp_all [create_notification, update_price, insert_bid, outbidRow]

/-- Once the five checks have passed, `place_bid` is exactly the write
phase `bid_commit`. -/
theorem place_bid_reduces (db : DB) (sess : Session) (aid : Nat)
    (amt now : Int) (fault : Option Fault) (uid : Nat) (user : User)
    (auction : Auction)
    (h1 : sess.user_id = some uid) (h2 : findUser db uid = some user)
    (h3 : user.email_verified = true) (h4 : fault ≠ some Fault.atSelect)
    (h5 : findAuction db aid = some auction) (h6 : auction.seller_id ≠ uid)
    (h7 : ¬(auction.end_time < now)) (h8 : ¬(amt ≤ auction.current_price)) :
    place_bid db sess aid amt now fault =
      bid_commit db uid sess.user_name auction aid amt now fault := by
  simp [place_bid, h1, h2, h3, h4, h5, h6, h7, h8]

/-- A successful `place_bid` implies all five checks passed, and in
particular the bid amount strictly exceeded the `current_price` read
under the row lock. -/
theorem place_bid_success_inv (db : DB) (sess : Session) (aid : Nat)
    (amt now : Int) (fault : Option Fault)
    (h : (place_bid db sess aid amt now fault).outcome =
      BidOutcome.success) :
    ∃ uid user auction, sess.user_id = some uid ∧
      findUser db uid = some user ∧ user.email_verified = true ∧
      fault ≠ some Fault.atSelect ∧ findAuction db aid = some auction ∧
      auction.seller_id ≠ uid ∧ ¬(auction.end_time < now) ∧
      auction.current_price < amt := by
  simp only [place_bid] at h
  repeat' split at h
  all_goals try exact absurd h (by simp)
  rename_i xo uid huid xu user huser hver hflt xa auction hauc hsell hend hlow
  exact ⟨uid, user, auction, huid, huser, by simpa using hver, hflt, hauc,
    hsell, hend, by omega⟩

theorem bid_commit_outcome_of_fault_none (db : DB) (uid : Nat) (un : String)
    (auction : Auction) (aid : Nat) (amt now : Int) :
    (bid_commit db uid un auction aid amt now none).outcome =
      BidOutcome.success := by
  simp only [bid_commit]
  repeat' split
  all_goals simp_all

theorem bid_commit_events_success (db : DB) (uid : Nat) (un : String)
    (auction : Auction) (aid : Nat) (amt now : Int) (fault : Option Fault)
    (h : (bid_commit db uid un auction aid amt now fault).outcome =
      BidOutcome.success) :
    (bid_commit db uid un auction aid amt now fault).events =
        [Event.commit, Event.bidEmit ⟨aid, amt, un⟩] ∨
      ∃ n, (bid_commit db uid un auction aid amt now fault).events =
        [Event.notifyEmit n, Event.commit, Event.bidEmit ⟨aid, amt, un⟩] := by
  simp only [bid_commit] at h ⊢
  repeat' split at h
  all_goals simp_all [create_notification]

theorem bid_commit_events_ne_success (db : DB) (uid : Nat) (un : String)
    (auction : Auction) (aid : Nat) (amt now : Int) (fault : Option Fault)
    (h : (bid_commit db uid un auction aid amt now fault).outcome ≠
      BidOutcome.success) :
    (bid_commit db uid un auction aid amt now fault).events = [] ∨
      ∃ n, (bid_commit db uid un auction aid amt now fault).events =
        [Event.notifyEmit n] := by
  simp only [bid_commit] at h ⊢
  repeat' split at h
  all_goals simp_all [create_notification]

theorem place_bid_events_ne_success (db : DB) (sess : Session) (aid : Nat)
    (amt now : Int) (fault : Option Fault)
    (h : (place_bid db sess aid amt now fault).outcome ≠
      BidOutcome.success) :
    (place_bid db sess aid amt now fault).events = [] ∨
      ∃ n, (place_bid db sess aid amt now fault).events =
        [Event.notifyEmit n] := by
  simp only [place_bid] at h ⊢
  repeat' split at h
  all_goals try simp_all
  all_goals repeat' split
  all_goals try (exfalso; omega)
  all_goals try simp
  all_goals exact bid_commit_events_ne_success _ _ _ _ _ _ _ _ h

theorem place_bid_events_success (db : DB) (sess : Session) (aid : Nat)
    (amt now : Int) (fault : Option Fault)
    (h : (place_bid db sess aid amt now fault).outcome =
      BidOutcome.success) :
    (place_bid db sess aid amt now fault).events =
        [Event.commit, Event.bidEmit ⟨aid, amt, sess.user_name⟩] ∨
      ∃ n, (place_bid db sess aid amt now fault).events =
        [Event.notifyEmit n, Event.commit,
         Event.bidEmit ⟨aid, amt, sess.user_name⟩] := by
  obtain ⟨uid, user, auction, h1, h2, h3, h4, h5, h6, h7, h8⟩ :=
    place_bid_success_inv db sess aid amt now fault h
  have hred := place_bid_reduces db sess aid amt now fault uid user auction
    h1 h2 h3 h4 h5 h6 h7 (by omega)
  rw [hred]
  rw [hred] at h
  exact bid_commit_events_success db uid sess.user_name auction aid amt now
    fault h


/-! ### Invariant lemmas -/

theorem findAuction_mem (db : DB) (aid : Nat) (a : Auction)
    (h : findAuction db aid = some a) : a ∈ db.auctions ∧ a.id = aid := by
  refine ⟨List.mem_of_find?_eq_some h, ?_⟩
  have := List.find?_some h
  simpa using this

theorem auctionAmounts_append_one (bids : List Bid) (b : Bid) (aid : Nat) :
    auctionAmounts (bids ++ [b]) aid =
      auctionAmounts bids aid ++
        (if b.auction_id = aid then [b.amount] else []) := by
  by_cases h : b.auction_id = aid <;>
    simp [auctionAmounts, List.filter_append, h]

theorem maxAmount_append_one (xs : List Int) (y : Int) :
    maxAmount (xs ++ [y]) =
      some (match maxAmount xs with | none => y | some m => max m y) := by
  induction xs with
  | nil => rfl
  | cons x t ih =>
    cases hmt : maxAmount t with
    | none => simp [maxAmount, ih, hmt]
    | some m => simp [maxAmount, ih, hmt, max_assoc]

theorem map_update_price_id (l : List Auction) (aid : Nat) (amt : Int) :
    ((l.map (fun a =>
        if a.id == aid then { a with current_price := amt } else a)).map
          Auction.id) = l.map Auction.id := by
  rw [List.map_map]
  apply List.map_congr_left
  intro a _
  by_cases h : a.id = aid <;> simp [h]

theorem good_update (db : DB) (aid uid : Nat) (amt now : Int)
    (auction : Auction) (h5 : findAuction db aid = some auction)
    (hlt : auction.current_price < amt)
    (hp : priceInv db) (hi : idInv db) :
    priceInv (update_price (insert_bid db aid uid amt now) aid amt) ∧
    idInv (update_price (insert_bid db aid uid amt now) aid amt) := by
  obtain ⟨hmem, hid⟩ := findAuction_mem db aid auction h5
  obtain ⟨hi1, hi2, hi3⟩ := hi
  constructor
  · intro a' ha'
    simp only [update_price, insert_bid] at ha' ⊢
    rw [List.mem_map] at ha'
    obtain ⟨a, ha, rfl⟩ := ha'
    by_cases hcase : a.id = aid
    · have haa : a = auction :=
        List.inj_on_of_nodup_map hi3 ha hmem (by rw [hid, hcase])
      have hlt' : a.current_price < amt := haa ▸ hlt
      obtain ⟨hsp, hmax⟩ := hp a ha
      have hbeq : (a.id == aid) = true := by simp [hcase]
      rw [if_pos hbeq]
      have hrow : auctionAmounts (db.bids ++
          [{ auction_id := aid, user_id := uid
             amount := amt, bid_time := now }]) a.id =
          auctionAmounts db.bids a.id ++ [amt] := by
        rw [auctionAmounts_append_one]
        simp [hcase]
      dsimp only
      rw [hrow, maxAmount_append_one]
      cases hmx : maxAmount (auctionAmounts db.bids a.id) with
      | none =>
        simp only [hmx] at hmax
        exact ⟨by omega, rfl⟩
      | some m =>
        simp only [hmx] at hmax
        refine ⟨by omega, ?_⟩
        dsimp only
        rw [max_eq_right (le_of_lt (by omega))]
    · have hbeq : (a.id == aid) = false := by simp [hcase]
      rw [hbeq]
      simp only [Bool.false_eq_true, if_false]
      obtain ⟨hsp, hmax⟩ := hp a ha
      have hrow : auctionAmounts (db.bids ++
          [{ auction_id := aid, user_id := uid
             amount := amt, bid_time := now }]) a.id =
          auctionAmounts db.bids a.id := by
        rw [auctionAmounts_append_one]
        simp [Ne.symm hcase]
      rw [hrow]
      exact ⟨hsp, hmax⟩
  · refine ⟨?_, ?_, ?_⟩
    · intro a' ha'
      simp only [update_price, insert_bid] at ha' ⊢
      rw [List.mem_map] at ha'
      obtain ⟨a, ha, rfl⟩ := ha'
      by_cases hcase : a.id = aid
      · simp only [hcase]
        simp
        exact hcase ▸ hi1 a ha
      · simp [hcase]
        exact hi1 a ha
    · intro b hb
      simp only [update_price, insert_bid] at hb ⊢
      rw [List.mem_append] at hb
      rcases hb with hb | hb
      · exact hi2 b hb
      · simp at hb
        subst hb
        exact hid ▸ hi1 auction hmem
    · simp only [update_price, insert_bid]
      rw [map_update_price_id]
      exact hi3

theorem create_auction_preserves_good (db : DB) (sellerId : Nat)
    (title : String) (sp et : Int) (hp : priceInv db) (hi : idInv db) :
    priceInv (create_auction db sellerId title sp et) ∧
    idInv (create_auction db sellerId title sp et) := by
  obtain ⟨hi1, hi2, hi3⟩ := hi
  constructor
  · intro a ha
    simp only [create_auction] at ha ⊢
    rw [List.mem_append] at ha
    rcases ha with ha | ha
    · exact hp a ha
    · simp at ha
      subst ha
      refine ⟨le_refl _, ?_⟩
      have hnil : auctionAmounts db.bids db.next_auction_id = [] := by
        simp only [auctionAmounts]
        rw [show (db.bids.filter
            (fun b => b.auction_id == db.next_auction_id)) = [] from ?_]
        · rfl
        · rw [List.filter_eq_nil_iff]
          intro b hb
          have := hi2 b hb
          simp
          omega
      simp [hnil, maxAmount]
  · refine ⟨?_, ?_, ?_⟩
    · intro a ha
      simp only [create_auction] at ha ⊢
      rw [List.mem_append] at ha
      rcases ha with ha | ha
      · have := hi1 a ha
        omega
      · simp at ha
        subst ha
        simp
    · intro b hb
      simp only [create_auction] at hb ⊢
      have := hi2 b hb
      omega
    · simp only [create_auction]
      rw [List.map_append]
      rw [List.nodup_append]
      refine ⟨hi3, by simp, ?_⟩
      intro x hx hx2
      simp at hx2
      rw [List.mem_map] at hx
      obtain ⟨a, ha, rfl⟩ := hx
      have := hi1 a ha
      omega

theorem place_bid_preserves_good (db : DB) (sess : Session) (aid : Nat)
    (amt now : Int) (fault : Option Fault)
    (hp : priceInv db) (hi : idInv db) :
    priceInv (place_bid db sess aid amt now fault).db ∧
    idInv (place_bid db sess aid amt now fault).db := by
  by_cases h : (place_bid db sess aid amt now fault).outcome =
      BidOutcome.success
  · obtain ⟨uid, user, auction, h1, h2, h3, h4, h5, h6, h7, h8⟩ :=
      place_bid_success_inv db sess aid amt now fault h
    have hred := place_bid_reduces db sess aid amt now fault uid user auction
      h1 h2 h3 h4 h5 h6 h7 (by omega)
    rw [hred] at h ⊢
    rw [bid_commit_success_db db uid sess.user_name auction aid amt now
      fault h]
    have hg := good_update db aid uid amt now auction h5 h8 hp hi
    cases hhb : highestBidder db aid with
    | none => exact hg
    | some hb =>
      by_cases hbu : hb = uid
      · simp only [hbu, if_pos rfl]
        exact hg
      · simp only [if_neg hbu]
        exact hg
  · rw [place_bid_db_of_ne_success db sess aid amt now fault h]
    exact ⟨hp, hi⟩

theorem reachable_good (users : List User) (db : DB)
    (h : Reachable users db) : priceInv db ∧ idInv db := by
  induction h with
  | init =>
    refine ⟨?_, ?_, ?_, ?_⟩
    · intro a ha
      simp [initDB] at ha
    · intro a ha
      simp [initDB] at ha
    · intro b hb
      simp [initDB] at hb
    · simp [initDB]
  | step hr hs ih =>
    cases hs with
    | bid sess aid amt now fault =>
      exact place_bid_preserves_good _ sess aid amt now fault ih.1 ih.2
    | create sellerId title sp et =>
      exact create_auction_preserves_good _ sellerId title sp et ih.1 ih.2

/-- On success, `place_bid` raises the target auction's `current_price`
to the bid amount and leaves every other auction row untouched. -/
theorem place_bid_success_find (db : DB) (sess : Session) (aid : Nat)
    (amt now : Int) (fault : Option Fault)
    (h : (place_bid db sess aid amt now fault).outcome =
      BidOutcome.success) :
    ∃ a, findAuction db aid = some a ∧ a.current_price < amt ∧
      findAuction (place_bid db sess aid amt now fault).db aid =
        some { a with current_price := amt } ∧
      ∀ b, b ≠ aid →
        findAuction (place_bid db sess aid amt now fault).db b =
          findAuction db b := by
  obtain ⟨uid, user, auction, h1, h2, h3, h4, h5, h6, h7, h8⟩ :=
    place_bid_success_inv db sess aid amt now fault h
  have hred := place_bid_reduces db sess aid amt now fault uid user auction
    h1 h2 h3 h4 h5 h6 h7 (by omega)
  rw [hred] at h ⊢
  have hns : ∃ ns,
      (bid_commit db uid sess.user_name auction aid amt now fault).db =
      { update_price (insert_bid db aid uid amt now) aid amt with
        notifications := ns } := by
    rw [bid_commit_success_db db uid sess.user_name auction aid amt now
      fault h]
    cases highestBidder db aid with
    | none => exact ⟨_, rfl⟩
    | some hb =>
      dsimp only
      by_cases hbu : hb = uid
      · rw [if_pos hbu]
        exact ⟨_, rfl⟩
      · rw [if_neg hbu]
        exact ⟨_, rfl⟩
  obtain ⟨ns, hdb⟩ := hns
  rw [hdb]
  have h5' : db.auctions.find? (fun a => a.id == aid) = some auction := h5
  refine ⟨auction, h5, by omega, ?_, ?_⟩
  · show ((update_price (insert_bid db aid uid amt now) aid amt).auctions.find?
      (fun a => a.id == aid)) = some { auction with current_price := amt }
    simp only [update_price, insert_bid]
    rw [find_price_update_self, h5']
    rfl
  · intro b hb
    show ((update_price (insert_bid db aid uid amt now) aid amt).auctions.find?
      (fun a => a.id == b)) = findAuction db b
    simp only [update_price, insert_bid]
    rw [find_price_update_ne _ _ _ _ hb]
    rfl

theorem run_bids_spec (aid : Nat) (attempts : List Attempt) (db : DB)
    (hall : ∀ att ∈ attempts, att.auction_id = aid) :
    List.Chain' (· < ·)
      (acceptedAmounts aid attempts (run_bids db attempts).2) ∧
    (∀ x ∈ acceptedAmounts aid attempts (run_bids db attempts).2,
      ∃ a, findAuction db aid = some a ∧ a.current_price < x) ∧
    (∀ b, b ≠ aid →
      findAuction (run_bids db attempts).1 b = findAuction db b) ∧
    ((findAuction (run_bids db attempts).1 aid).map Auction.current_price =
      (findAuction db aid).map (fun a =>
        (acceptedAmounts aid attempts (run_bids db attempts).2).foldl max
          a.current_price)) := by
  revert hall
  induction attempts generalizing db with
  | nil =>
    intro hall
    simp [run_bids, acceptedAmounts]
  | cons att rest ih =>
    intro hall
    have hatt : att.auction_id = aid := hall att (by simp)
    have hrest : ∀ a ∈ rest, a.auction_id = aid := fun a ha =>
      hall a (by simp [ha])
    simp only [run_bids]
    rw [hatt]
    by_cases hs : (place_bid db att.sess aid att.amount att.now
        att.fault).outcome = BidOutcome.success
    · obtain ⟨a0, hfind, hlt, hfind', hpres⟩ :=
        place_bid_success_find db att.sess aid att.amount att.now
          att.fault hs
      obtain ⟨chainR, elemsR, presR, priceR⟩ :=
        ih (place_bid db att.sess aid att.amount att.now att.fault).db
          hrest
      have hacc : acceptedAmounts aid (att :: rest)
          ((place_bid db att.sess aid att.amount att.now
            att.fault).outcome ::
            (run_bids (place_bid db att.sess aid att.amount
              att.now att.fault).db rest).2) =
          att.amount :: acceptedAmounts aid rest
            (run_bids (place_bid db att.sess aid att.amount
              att.now att.fault).db rest).2 := by
        simp [acceptedAmounts, hatt, hs]
      rw [hacc]
      have hgt : ∀ x ∈ acceptedAmounts aid rest
          (run_bids (place_bid db att.sess aid att.amount att.now
            att.fault).db rest).2, att.amount < x := by
        intro x hx
        obtain ⟨a', hfa', hlt'⟩ := elemsR x hx
        rw [hfind'] at hfa'
        have : a' = { a0 with current_price := att.amount } :=
          (Option.some_injective _ hfa').symm
        rw [this] at hlt'
        exact hlt'
      refine ⟨?_, ?_, ?_, ?_⟩
      · rw [List.chain'_cons']
        exact ⟨fun y hy => hgt y (List.mem_of_mem_head? hy), chainR⟩
      · intro x hx
        rcases List.mem_cons.mp hx with hx | hx
        · subst hx
          exact ⟨a0, hfind, hlt⟩
        · exact ⟨a0, hfind, lt_trans hlt (hgt x hx)⟩
      · intro b hb
        rw [presR b hb, hpres b hb]
      · rw [priceR, hfind', hfind]
        simp only [Option.map_some']
        have : max a0.current_price att.amount = att.amount :=
          max_eq_right (le_of_lt hlt)
        rw [List.foldl_cons, this]
    · have hdb : (place_bid db att.sess aid att.amount
          att.now att.fault).db = db :=
        place_bid_db_of_ne_success _ _ _ _ _ _ hs
      rw [hdb]
      obtain ⟨chainR, elemsR, presR, priceR⟩ := ih db hrest
      have hacc : acceptedAmounts aid (att :: rest)
          ((place_bid db att.sess aid att.amount att.now
            att.fault).outcome :: (run_bids db rest).2) =
          acceptedAmounts aid rest (run_bids db rest).2 := by
        simp [acceptedAmounts, hs]
      rw [hacc]
      exact ⟨chainR, elemsR, presR, priceR⟩

/-- On success, exactly the one bid row of this attempt is appended. -/
theorem place_bid_success_bids (db : DB) (sess : Session) (aid : Nat)
    (amt now : Int) (fault : Option Fault) (uid : Nat)
    (hu : sess.user_id = some uid)
    (hs : (place_bid db sess aid amt now fault).outcome =
      BidOutcome.success) :
    (place_bid db sess aid amt now fault).db.bids = db.bids ++
      [{ auction_id := aid, user_id := uid, amount := amt
         bid_time := now }] := by
  obtain ⟨uid', user, auction, h1, h2, h3, h4, h5, h6, h7, h8⟩ :=
    place_bid_success_inv db sess aid amt now fault hs
  have huid : uid' = uid := Option.some.inj (h1.symm.trans hu)
  subst huid
  have hred := place_bid_reduces db sess aid amt now fault uid' user auction
    h1 h2 h3 h4 h5 h6 h7 (by omega)
  rw [hred] at hs ⊢
  rw [bid_commit_success_db db uid' sess.user_name auction aid amt now
    fault hs]
  cases highestBidder db aid with
  | none => simp [update_price, insert_bid]
  | some hb =>
    dsimp only
    by_cases hbu : hb = uid'
    · rw [if_pos hbu]
      simp [update_price, insert_bid]
    · rw [if_neg hbu]
      simp [update_price, insert_bid]

/-- On success, the outbid notification row is appended exactly when a
previous leader distinct from the bidder exists; otherwise the
notification table is unchanged. -/
theorem place_bid_success_notifications (db : DB) (sess : Session)
    (aid : Nat) (amt now : Int) (fault : Option Fault) (uid : Nat)
    (auction : Auction) (hu : sess.user_id = some uid)
    (ha : findAuction db aid = some auction)
    (hs : (place_bid db sess aid amt now fault).outcome =
      BidOutcome.success) :
    match highestBidder db aid with
    | some hb =>
      if hb = uid then
        (place_bid db sess aid amt now fault).db.notifications =
          db.notifications
      else
        (place_bid db sess aid amt now fault).db.notifications =
          db.notifications ++ [outbidRow hb auction.title aid now]
    | none =>
      (place_bid db sess aid amt now fault).db.notifications =
        db.notifications := by
  obtain ⟨uid', user, auction', h1, h2, h3, h4, h5, h6, h7, h8⟩ :=
    place_bid_success_inv db sess aid amt now fault hs
  have huid : uid' = uid := Option.some.inj (h1.symm.trans hu)
  subst huid
  have hauc : auction' = auction := Option.some.inj (h5.symm.trans ha)
  subst hauc
  have hred := place_bid_reduces db sess aid amt now fault uid' user auction'
    h1 h2 h3 h4 h5 h6 h7 (by omega)
  rw [hred] at hs ⊢
  have hdb := bid_commit_success_db db uid' sess.user_name auction' aid amt
    now fault hs
  cases hhb : highestBidder db aid with
  | none =>
    simp only [hhb] at hdb ⊢
    rw [hdb]
    simp [update_price, insert_bid]
  | some hb =>
    simp only [hhb] at hdb ⊢
    by_cases hbu : hb = uid'
    · rw [if_pos hbu] at hdb ⊢
      rw [hdb]
      simp [update_price, insert_bid]
    · rw [if_neg hbu] at hdb ⊢
      rw [hdb]

/-! ### Claim theorems -/

/-- Claim C1: over any serialized sequence of concurrent bid attempts
(the order in which attempts acquire the per-auction `FOR UPDATE` row
lock), attempts all targeting auction `aid` leave every other auction row
untouched (independence, no shared state), the amounts of the accepted
bids are strictly increasing, and the final `current_price` of `aid` is
the fold of `max` over the accepted amounts starting from the initial
price, i.e. the maximum accepted amount when at least one bid was
accepted. -/
theorem C1_per_auction_serialization (db : DB) (attempts : List Attempt)
    (aid : Nat) (hall : ∀ att ∈ attempts, att.auction_id = aid) :
    List.Chain' (· < ·)
      (acceptedAmounts aid attempts (run_bids db attempts).2) ∧
    (∀ x ∈ acceptedAmounts aid attempts (run_bids db attempts).2,
      ∃ a, findAuction db aid = some a ∧ a.current_price < x) ∧
    (∀ b, b ≠ aid →
      findAuction (run_bids db attempts).1 b = findAuction db b) ∧
    ((findAuction (run_bids db attempts).1 aid).map Auction.current_price =
      (findAuction db aid).map (fun a =>
        (acceptedAmounts aid attempts (run_bids db attempts).2).foldl max
          a.current_price)) :=
  run_bids_spec aid attempts db hall

theorem C1_witness :
    (∀ att ∈ demoAttempts, att.auction_id = 1) ∧
    (List.Chain' (· < ·)
      (acceptedAmounts 1 demoAttempts (run_bids demoDB demoAttempts).2) ∧
    (∀ x ∈ acceptedAmounts 1 demoAttempts (run_bids demoDB demoAttempts).2,
      ∃ a, findAuction demoDB 1 = some a ∧ a.current_price < x) ∧
    (∀ b, b ≠ 1 →
      findAuction (run_bids demoDB demoAttempts).1 b =
        findAuction demoDB b) ∧
    ((findAuction (run_bids demoDB demoAttempts).1 1).map
        Auction.current_price =
      (findAuction demoDB 1).map (fun a =>
        (acceptedAmounts 1 demoAttempts
          (run_bids demoDB demoAttempts).2).foldl max a.current_price))) :=
  ⟨by decide, C1_per_auction_serialization demoDB demoAttempts 1 (by decide)⟩

/-- Claim C2: the bid insert, price update and outbid-notification insert
form one atomic unit: on success all three effects persist together,
while a storage fault inside the unit rolls the whole transaction back
(the database is exactly the pre-call one) before the generic retryable
`transientFailure` outcome is returned to the caller (the route catches
every connector exception, so no fault is ever raised to the caller). -/
theorem C2_atomic_unit (db : DB) (sess : Session) (aid : Nat)
    (amt now : Int) (fault : Option Fault) :
    ((place_bid db sess aid amt now fault).outcome =
        BidOutcome.transientFailure →
      (place_bid db sess aid amt now fault).db = db) ∧
    ((place_bid db sess aid amt now fault).outcome = BidOutcome.success →
      ∃ uid auction, sess.user_id = some uid ∧
        findAuction db aid = some auction ∧
        (place_bid db sess aid amt now fault).db.bids = db.bids ++
          [{ auction_id := aid, user_id := uid, amount := amt
             bid_time := now }] ∧
        findAuction (place_bid db sess aid amt now fault).db aid =
          some { auction with current_price := amt } ∧
        (match highestBidder db aid with
         | some hb =>
           if hb = uid then
             (place_bid db sess aid amt now fault).db.notifications =
               db.notifications
           else
             (place_bid db sess aid amt now fault).db.notifications =
               db.notifications ++ [outbidRow hb auction.title aid now]
         | none =>
           (place_bid db sess aid amt now fault).db.notifications =
             db.notifications)) := by
  constructor
  · intro h
    apply place_bid_db_of_ne_success
    rw [h]
    decide
  · intro hs
    obtain ⟨a0, hf0, hl0, hf', hp'⟩ :=
      place_bid_success_find db sess aid amt now fault hs
    obtain ⟨uid, user, auction', h1, h2, h3, h4, h5, h6, h7, h8⟩ :=
      place_bid_success_inv db sess aid amt now fault hs
    have hauc : auction' = a0 := Option.some.inj (h5.symm.trans hf0)
    subst hauc
    exact ⟨uid, auction', h1, h5,
      place_bid_success_bids db sess aid amt now fault uid h1 hs, hf',
      place_bid_success_notifications db sess aid amt now fault uid
        auction' h1 h5 hs⟩

theorem C2_witness :
    (place_bid demoDB demoSess2 1 150 50 (some Fault.atCommit)).outcome =
      BidOutcome.transientFailure ∧
    (place_bid demoDB demoSess2 1 150 50 (some Fault.atCommit)).db =
      demoDB :=
  ⟨by decide,
   (C2_atomic_unit demoDB demoSess2 1 150 50 (some Fault.atCommit)).1
     (by decide)⟩

/-- Claim C3: in every reachable database state, every auction row
satisfies `starting_price <= current_price`, with `current_price` equal
to the highest committed bid amount, or to `starting_price` when the
auction has no bids; and every bid `place_bid` commits strictly exceeds
the `current_price` read under the row lock at the commit decision. -/
theorem C3_price_invariant (users : List User) (db : DB)
    (h : Reachable users db) :
    priceInv db ∧
    ∀ sess aid amt now fault,
      (place_bid db sess aid amt now fault).outcome = BidOutcome.success →
      ∃ a, findAuction db aid = some a ∧ a.current_price < amt := by
  refine ⟨(reachable_good users db h).1, ?_⟩
  intro sess aid amt now fault hs
  obtain ⟨uid, user, auction, h1, h2, h3, h4, h5, h6, h7, h8⟩ :=
    place_bid_success_inv db sess aid amt now fault hs
  exact ⟨auction, h5, h8⟩

theorem C3_witness :
    priceInv (create_auction (initDB [demoSeller, demoBidder]) 1 "item"
      100 200) ∧
    ∀ sess aid amt now fault,
      (place_bid (create_auction (initDB [demoSeller, demoBidder]) 1
        "item" 100 200) sess aid amt now fault).outcome =
          BidOutcome.success →
      ∃ a, findAuction (create_auction (initDB [demoSeller, demoBidder]) 1
        "item" 100 200) aid = some a ∧ a.current_price < amt :=
  C3_price_invariant [demoSeller, demoBidder] _
    (Reachable.step Reachable.init (Step.create _ 1 "item" 100 200))

/-- Claim C4: for a logged-in verified non-seller bidder on an existing
auction strictly before its end, the attempt is rejected as too-low
exactly when the amount does not exceed the `current_price` read inside
the critical section (the current database state under the row lock),
regardless of any fault injected after the validation reads. -/
theorem C4_too_low_iff (db : DB) (sess : Session) (aid : Nat)
    (amt now : Int) (fault : Option Fault) (uid : Nat) (user : User)
    (auction : Auction)
    (h1 : sess.user_id = some uid) (h2 : findUser db uid = some user)
    (h3 : user.email_verified = true) (h4 : fault ≠ some Fault.atSelect)
    (h5 : findAuction db aid = some auction)
    (h6 : auction.seller_id ≠ uid) (h7 : now < auction.end_time) :
    ((place_bid db sess aid amt now fault).outcome = BidOutcome.tooLow ↔
      amt ≤ auction.current_price) := by
  constructor
  · intro h
    by_contra hc
    have hred := place_bid_reduces db sess aid amt now fault uid user
      auction h1 h2 h3 h4 h5 h6 (by omega) hc
    rw [hred] at h
    rcases bid_commit_cases db uid sess.user_name auction aid amt now fault
      with hx | hx
    · rw [h] at hx
      exact absurd hx (by decide)
    · rw [h] at hx
      exact absurd hx.2 (by decide)
  · intro h
    simp [place_bid, h1, h2, h3, h4, h5, h6, h]
    rw [if_neg (show ¬auction.end_time < now by omega)]

theorem C4_witness :
    demoSess2.user_id = some 2 ∧
    findUser demoDB 2 = some demoBidder ∧
    demoBidder.email_verified = true ∧
    findAuction demoDB 1 = some demoAuction ∧
    demoAuction.seller_id ≠ 2 ∧
    (50 : Int) < demoAuction.end_time ∧
    ((place_bid demoDB demoSess2 1 90 50 none).outcome =
        BidOutcome.tooLow ↔ (90 : Int) ≤ demoAuction.current_price) :=
  ⟨by decide, by decide, by decide, by decide, by decide, by decide,
   C4_too_low_iff demoDB demoSess2 1 90 50 none 2 demoBidder demoAuction
     (by decide) (by decide) (by decide) (by decide) (by decide)
     (by decide) (by decide)⟩

/-- Claim C5 (code evidence): at the boundary instant `now = end_time`
(auction `demoAuction` ends at 100), the display helper already reports
the auction as ended (`end_time <= now`), and the winner-side order route
is already open, yet `place_bid` only rejects when `end_time < now`
(line `if auction['end_time'] < datetime.now()`), so the otherwise-valid
bid at that instant is accepted instead of being rejected as Ended. -/
theorem C5_ended_boundary :
    get_time_left_is_ended demoAuction.end_time 100 = true ∧
    (place_bid demoDB demoSess2 1 150 100 none).outcome =
      BidOutcome.success := by decide

/-- Claim C6: a verified bidder who is the auction's seller is rejected
as a self-bid, whatever the amount, the time (before or after
`end_time`) and any fault injected past the validation reads. -/
theorem C6_self_bid (db : DB) (sess : Session) (aid : Nat)
    (amt now : Int) (fault : Option Fault) (uid : Nat) (user : User)
    (auction : Auction)
    (h1 : sess.user_id = some uid) (h2 : findUser db uid = some user)
    (h3 : user.email_verified = true) (h4 : fault ≠ some Fault.atSelect)
    (h5 : findAuction db aid = some auction)
    (h6 : auction.seller_id = uid) :
    (place_bid db sess aid amt now fault).outcome = BidOutcome.selfBid := by
  simp [place_bid, h1, h2, h3, h4, h5, h6]

theorem C6_witness :
    demoAuction.end_time < 1000 ∧ demoAuction.current_price < 10000 ∧
    (place_bid demoDB demoSess1 1 10000 1000 none).outcome =
      BidOutcome.selfBid :=
  ⟨by decide, by decide,
   C6_self_bid demoDB demoSess1 1 10000 1000 none 1 demoSeller demoAuction
     (by decide) (by decide) (by decide) (by decide) (by decide)
     (by decide)⟩

/-- Claim C7: an accepted bid appends exactly one notification row,
addressed to the previous highest bidder, when such a previous leader
exists and is not the new bidder; it appends none when there was no
previous leader or when the previous leader re-bids on themselves. -/
theorem C7_outbid_notification (db : DB) (sess : Session) (aid : Nat)
    (amt now : Int) (fault : Option Fault) (uid : Nat) (auction : Auction)
    (hu : sess.user_id = some uid)
    (ha : findAuction db aid = some auction)
    (hs : (place_bid db sess aid amt now fault).outcome =
      BidOutcome.success) :
    match highestBidder db aid with
    | some hb =>
      if hb = uid then
        (place_bid db sess aid amt now fault).db.notifications =
          db.notifications
      else
        (place_bid db sess aid amt now fault).db.notifications =
          db.notifications ++ [outbidRow hb auction.title aid now]
    | none =>
      (place_bid db sess aid amt now fault).db.notifications =
        db.notifications :=
  place_bid_success_notifications db sess aid amt now fault uid auction hu
    ha hs

theorem C7_witness :
    highestBidder demoDBLeader 1 = some 3 ∧
    (place_bid demoDBLeader demoSess2 1 200 50 none).outcome =
      BidOutcome.success ∧
    (match highestBidder demoDBLeader 1 with
     | some hb =>
       if hb = 2 then
         (place_bid demoDBLeader demoSess2 1 200 50 none).db.notifications =
           demoDBLeader.notifications
       else
         (place_bid demoDBLeader demoSess2 1 200 50 none).db.notifications =
           demoDBLeader.notifications ++
             [outbidRow hb demoAuction150.title 1 50]
     | none =>
       (place_bid demoDBLeader demoSess2 1 200 50 none).db.notifications =
         demoDBLeader.notifications) :=
  ⟨by decide, by decide,
   C7_outbid_notification demoDBLeader demoSess2 1 200 50 none 2
     demoAuction150 (by decide) (by decide) (by decide)⟩

/-- Claim C8 (counterexample): with a storage fault at `conn.commit()`,
the outbid-notification broadcast has already been emitted inside the
transaction (by `create_notification`, before the commit), so an
observer sees a notification event for a transaction that was rolled
back — refuting that every broadcast happens strictly after commit. -/
theorem C8_pre_commit_notify_emit :
    (place_bid demoDBLeader demoSess2 1 200 50
        (some Fault.atCommit)).outcome = BidOutcome.transientFailure ∧
    (place_bid demoDBLeader demoSess2 1 200 50
        (some Fault.atCommit)).db = demoDBLeader ∧
    (place_bid demoDBLeader demoSess2 1 200 50
        (some Fault.atCommit)).events =
      [Event.notifyEmit
        { id := 1, user_id := 3, message := "You have been outbid on item."
          is_read := false, created_at := 50, link := "/auction/1" }] := by
  decide

/-- Claim C8 as amended: the public `new_bid` broadcast is emitted only
after `conn.commit()` (it is the last event of every successful run and
never occurs otherwise), but the outbid-notification payload is handed
to the broadcaster inside the atomic unit, before the commit — it
precedes `commit` in every successful trace and can even be emitted in a
run whose transaction rolls back. -/
theorem C8_amended_broadcast_order (db : DB) (sess : Session) (aid : Nat)
    (amt now : Int) (fault : Option Fault) :
    ((place_bid db sess aid amt now fault).outcome = BidOutcome.success →
      ((place_bid db sess aid amt now fault).events =
          [Event.commit, Event.bidEmit ⟨aid, amt, sess.user_name⟩] ∨
        ∃ n, (place_bid db sess aid amt now fault).events =
          [Event.notifyEmit n, Event.commit,
           Event.bidEmit ⟨aid, amt, sess.user_name⟩])) ∧
    ((place_bid db sess aid amt now fault).outcome ≠ BidOutcome.success →
      Event.commit ∉ (place_bid db sess aid amt now fault).events ∧
      ∀ p, Event.bidEmit p ∉ (place_bid db sess aid amt now fault).events)
    := by
  constructor
  · exact place_bid_events_success db sess aid amt now fault
  · intro h
    rcases place_bid_events_ne_success db sess aid amt now fault h with
      he | ⟨n, he⟩ <;> rw [he] <;> simp

theorem C8_amended_witness :
    (place_bid demoDBLeader demoSess2 1 200 50 none).outcome =
      BidOutcome.success ∧
    ((place_bid demoDBLeader demoSess2 1 200 50 none).events =
        [Event.commit, Event.bidEmit ⟨1, 200, demoSess2.user_name⟩] ∨
      ∃ n, (place_bid demoDBLeader demoSess2 1 200 50 none).events =
        [Event.notifyEmit n, Event.commit,
         Event.bidEmit ⟨1, 200, demoSess2.user_name⟩]) :=
  ⟨by decide,
   (C8_amended_broadcast_order demoDBLeader demoSess2 1 200 50 none).1
     (by decide)⟩

/-- Claim C9: the broadcaster join handler admits a join exactly when
the requested room equals the caller's authenticated identity; an
unauthenticated caller is never admitted, and in particular a caller
authenticated as user 43 requesting user 42's private topic is denied. -/
theorem C9_private_topic_join :
    (∀ uid room, (handle_join (some uid) room = true ↔
      room = toString uid)) ∧
    (∀ room, handle_join none room = false) ∧
    handle_join (some 43) "42" = false := by
  refine ⟨?_, fun room => rfl, by decide⟩
  intro uid room
  simp only [handle_join]
  rw [beq_iff_eq]
  exact eq_comm

/-- Claim C10: every attempt ending in one of the five validation
rejections (unverified, not-found, self-bid, ended, too-low) leaves the
entire database unchanged: no bid row, no price change, no notification
row. -/
theorem C10_rejection_frame (db : DB) (sess : Session) (aid : Nat)
    (amt now : Int) (fault : Option Fault)
    (h : (place_bid db sess aid amt now fault).outcome =
        BidOutcome.unverified ∨
      (place_bid db sess aid amt now fault).outcome =
        BidOutcome.notFound ∨
      (place_bid db sess aid amt now fault).outcome =
        BidOutcome.selfBid ∨
      (place_bid db sess aid amt now fault).outcome =
        BidOutcome.ended ∨
      (place_bid db sess aid amt now fault).outcome =
        BidOutcome.tooLow) :
    (place_bid db sess aid amt now fault).db = db := by
  apply place_bid_db_of_ne_success
  rcases h with h | h | h | h | h <;> rw [h] <;> decide

theorem C10_witness :
    (place_bid demoDB demoSess2 1 90 50 none).outcome =
      BidOutcome.tooLow ∧
    (place_bid demoDB demoSess2 1 90 50 none).db = demoDB :=
  ⟨by decide,
   C10_rejection_frame demoDB demoSess2 1 90 50 none
     (Or.inr (Or.inr (Or.inr (Or.inr (by decide)))))⟩

end App
